import Mathlib

/-!
Verification of the reaction-path kinetics integrator of the Reaktoro
repository (`KineticPath::Impl` in `src/Reaktoro/Common/InterpolationUtils.cpp`,
lines 356-828).  The shallow embedding below translates the orchestrator's
data model and operations: the partition-derived matrices assembled by
`setPartition` (lines 454-492), the ODE right-hand side `function`
(lines 710-746), the ODE `jacobian` (lines 748-774), `initialize`
(lines 499-536) and `step` (lines 538-567).

Modelling conventions:
* C++ `double` values crossing the integrator boundary are modelled by `FP`,
  a rational number tagged as finite, or one of the non-finite values
  (NaN, plus or minus infinity); finite arithmetic is exact rational
  arithmetic (rounding is not modelled).
* The external collaborators (equilibrium solver, activity model, reaction
  rates, stiff ODE integrator) are opaque function fields of `KineticImpl`;
  the C++ in-place state mutation combined with exception propagation is
  modelled with `Except`, whose error payload carries the chemical state as
  it stood when the exception escaped.
* The member buffers `be`, `nk`, `benk`, `a` of the C++ `Impl` are plain
  scratch storage with no observable role; they appear as local bindings.
-/

namespace Reaktoro

/-- Model of a C++ `double` at the integrator boundary: either a finite
value (an exact rational) or one of the non-finite values recognised by
`std::isfinite`. -/
inductive FP where
  | val (q : ℚ)
  | nan
  | posInf
  | negInf
deriving DecidableEq

/-- Model of `std::isfinite` (used by `function`, line 718). -/
def FP.isFinite : FP → Bool
  | .val _ => true
  | _ => false

/-- The rational payload of a finite `FP` value.  Non-finite values carry no
rational payload; the junk value `0` is only ever reached on code paths on
which the source would operate on NaN or infinity (the guarded paths never
apply it to non-finite components). -/
def FP.toRat : FP → ℚ
  | .val q => q
  | _ => 0

/-- Model of `ChemicalState` as consumed by `KineticPath::Impl`: temperature,
pressure and the vector of species molar amounts (`state.temperature()`,
`state.pressure()`, `state.speciesAmounts()`). -/
structure ChemState (N : ℕ) where
  temperature : ℚ
  pressure : ℚ
  speciesAmounts : Fin N → ℚ
deriving DecidableEq

/-- Model of `state.setSpeciesAmounts(v, idx)`: write `v i` into slot
`idx i` of the amount vector, for `i` ascending (later writes win, as in the
C++ loop). -/
def ChemState.setSpeciesAmounts {N K : ℕ} (s : ChemState N) (v : Fin K → ℚ)
    (idx : Fin K → Fin N) : ChemState N :=
  { s with
    speciesAmounts :=
      (List.finRange K).foldl (fun f i => Function.update f (idx i) (v i))
        s.speciesAmounts }

/-- Model of the state of `KineticPath::Impl` (lines 358-437) after
`setPartition` has run, together with its external collaborators.
`N` is the total number of species, `nr` the number of reactions, `Ne`/`Nk`
the numbers of equilibrium/kinetic species and `Ee` the number of
equilibrium elements.

Collaborator fields (narrow contracts of §6 of the design):
* `eqSolve` models `equilibrium.solve(state, be)` (mutates the state; an
  `Except.error` carries the state at the point the C++ exception escaped);
* `dndb` models `equilibrium.dndb(state)`;
* `activities` models `system.activities(T, P, n)` (value part);
* `ratesVal`/`ratesDdn` model `reactions.rates(T, P, n, a)` value and
  composition-Jacobian;
* `odeIntegrate` models `ode.integrate(t, benk, tfinal)`: it receives and
  returns the chemical state because the ODE callbacks bound in
  `initialize` mutate it;
* `odeSolve` models `ode.solve(t, dt, benk)` (advance the integration from
  `t` to `t + dt`, mutating `benk` and, through the callbacks, the state);
* `outputActive` models `options.output.active` (line 571), which selects
  between the output and no-output variants of `solve`. -/
structure KineticImpl (N nr Ne Nk Ee : ℕ) where
  ispecies_e : Fin Ne → Fin N
  ispecies_k : Fin Nk → Fin N
  We : Matrix (Fin Ee) (Fin Ne) ℚ
  S : Matrix (Fin nr) (Fin N) ℚ
  activities : ℚ → ℚ → (Fin N → ℚ) → (Fin N → ℚ)
  ratesVal : ℚ → ℚ → (Fin N → ℚ) → (Fin N → ℚ) → (Fin nr → ℚ)
  ratesDdn : ℚ → ℚ → (Fin N → ℚ) → (Fin N → ℚ) → Matrix (Fin nr) (Fin N) ℚ
  eqSolve : ChemState N → (Fin Ee → ℚ) → Except (ChemState N) (ChemState N)
  dndb : ChemState N → Matrix (Fin Ne) (Fin Ee) ℚ
  odeIntegrate : ℚ → (Fin (Ee + Nk) → ℚ) → ℚ → ChemState N →
    Except (ChemState N) (ℚ × (Fin (Ee + Nk) → ℚ) × ChemState N)
  odeSolve : ℚ → ℚ → (Fin (Ee + Nk) → ℚ) → ChemState N →
    Except (ChemState N) ((Fin (Ee + Nk) → ℚ) × ChemState N)
  outputActive : Bool
  T : ℚ
  P : ℚ
  rddn : Matrix (Fin nr) (Fin N) ℚ

variable {N nr Ne Nk Ee : ℕ}

/-- The stoichiometric sub-matrix `Se = cols(reactions.stoichiometricMatrix(),
ispecies_e)` (line 482). -/
def SeM (impl : KineticImpl N nr Ne Nk Ee) : Matrix (Fin nr) (Fin Ne) ℚ :=
  fun i j => impl.S i (impl.ispecies_e j)

/-- The stoichiometric sub-matrix `Sk = cols(reactions.stoichiometricMatrix(),
ispecies_k)` (line 483). -/
def SkM (impl : KineticImpl N nr Ne Nk Ee) : Matrix (Fin nr) (Fin Nk) ℚ :=
  fun i j => impl.S i (impl.ispecies_k j)

/-- The coefficient matrix `A` assembled by `setPartition` (lines 486-488):
shape `(Ee+Nk) x nr`, `A.topRows(Ee) = We * tr(Se)`,
`A.bottomRows(Nk) = tr(Sk)`. -/
def assembleA (impl : KineticImpl N nr Ne Nk Ee) :
    Matrix (Fin (Ee + Nk)) (Fin nr) ℚ :=
  fun i j =>
    if h : (i : ℕ) < Ee then
      (impl.We * (SeM impl).transpose) ⟨i, h⟩ j
    else
      (SkM impl).transpose ⟨(i : ℕ) - Ee, by have := i.isLt; omega⟩ j

/-- The `be` segment `u.segment(0, Ee)` of a combined vector `u = [be nk]`
(line 713). -/
def beOf (u : Fin (Ee + Nk) → ℚ) : Fin Ee → ℚ :=
  fun i => u ⟨i, by have := i.isLt; omega⟩

/-- The `nk` segment `u.segment(Ee, Nk)` of a combined vector `u = [be nk]`
(line 714). -/
def nkOf (u : Fin (Ee + Nk) → ℚ) : Fin Nk → ℚ :=
  fun i => u ⟨Ee + i, by have := i.isLt; omega⟩

/-- Steps 2-3 of the right-hand side (lines 722-725): write the kinetic
amounts `nk` into the state, then solve the equilibrium problem with target
elemental abundance `be`.  Shared verbatim by `jacobian` (lines 755-758). -/
def resolveState (impl : KineticImpl N nr Ne Nk Ee) (state : ChemState N)
    (u : Fin (Ee + Nk) → ℚ) : Except (ChemState N) (ChemState N) :=
  impl.eqSolve (state.setSpeciesAmounts (nkOf u) impl.ispecies_k) (beOf u)

/-- The reaction-rate value `r.val` evaluated at the composition of a
resolved state (lines 728-734): activities and rates are evaluated at the
member temperature `T` and pressure `P`, and at the full composition
`n = state.speciesAmounts()`. -/
def rateValAt (impl : KineticImpl N nr Ne Nk Ee) (s : ChemState N) :
    Fin nr → ℚ :=
  impl.ratesVal impl.T impl.P s.speciesAmounts
    (impl.activities impl.T impl.P s.speciesAmounts)

/-- The reaction-rate composition-Jacobian `r.ddn` evaluated at the
composition of a resolved state (lines 728-734). -/
def rateDdnAt (impl : KineticImpl N nr Ne Nk Ee) (s : ChemState N) :
    Matrix (Fin nr) (Fin N) ℚ :=
  impl.ratesDdn impl.T impl.P s.speciesAmounts
    (impl.activities impl.T impl.P s.speciesAmounts)

/-- The right-hand side of the ODE before the non-negativity floor, as
assembled at lines 737-738: `res.segment(0, Ee) = We * tr(Se) * r.val` and
`res.segment(Ee, Nk) = tr(Sk) * r.val`. -/
def preFloorRes (impl : KineticImpl N nr Ne Nk Ee) (s : ChemState N) :
    Fin (Ee + Nk) → ℚ :=
  fun i =>
    if h : (i : ℕ) < Ee then
      ((impl.We * (SeM impl).transpose).mulVec (rateValAt impl s)) ⟨i, h⟩
    else
      ((SkM impl).transpose.mulVec (rateValAt impl s))
        ⟨(i : ℕ) - Ee, by have := i.isLt; omega⟩

/-- The floor threshold `1.0e-50` of line 742 (exact rational value of the
decimal literal; the nearest-double rounding is not modelled). -/
def floorEps : ℚ := 1 / 10 ^ 50

/-- The non-negativity floor of lines 741-743: for every row `i` of `u`,
if `|u[i]| < 1.0e-50` and `res[i] < 0` then `res[i]` is set to `0`. -/
def applyFloor {m : ℕ} (u : Fin m → ℚ) (res : Fin m → ℚ) : Fin m → ℚ :=
  fun i => if |u i| < floorEps ∧ res i < 0 then 0 else res i

/-- The outcome of one right-hand-side evaluation: the `int` return code,
the chemical state as left by the call, the output vector `res`, the stored
rate Jacobian member `r.ddn` after the call, and the temperature/pressure
at which activities and rates were evaluated (the `T`, `P` arguments of
lines 731 and 734, recorded for observability). -/
structure FuncResult (N nr Ee Nk : ℕ) where
  code : ℤ
  state : ChemState N
  res : Fin (Ee + Nk) → ℚ
  rddn : Matrix (Fin nr) (Fin N) ℚ
  Tused : ℚ
  Pused : ℚ
deriving DecidableEq

/-- Model of `KineticPath::Impl::function` (lines 710-746), the ODE
right-hand side `f(t, u)`:
1. extract `be`, `nk` from `u` (member buffer writes, no observable effect);
2. if any component of `u` is non-finite, return `1` (so the ODE solver
   reduces the time step) without touching the state;
3. write `nk` into the kinetic species of the state and solve the
   equilibrium problem with target `be` (`resolveState`);
4. evaluate activities and rates at the member `T`, `P`;
5. assemble `res = [We * tr(Se) * r.val; tr(Sk) * r.val]`;
6. apply the non-negativity floor; return `0`.
The `res0` argument is the prior content of the output parameter `res`,
returned unchanged when the guard fires. -/
def functionEval (impl : KineticImpl N nr Ne Nk Ee) (state : ChemState N)
    (t : ℚ) (u : Fin (Ee + Nk) → FP) (res0 : Fin (Ee + Nk) → ℚ) :
    Except (ChemState N) (FuncResult N nr Ee Nk) :=
  if ∀ i, (u i).isFinite = true then
    (resolveState impl state (fun i => (u i).toRat)).map
      (fun s2 =>
        ⟨0, s2,
          applyFloor (fun i => (u i).toRat) (preFloorRes impl s2),
          rateDdnAt impl s2, impl.T, impl.P⟩)
  else
    .ok ⟨1, state, res0, impl.rddn, impl.T, impl.P⟩

/-- The columns of the stored rate Jacobian restricted to the equilibrium
species: `Re = cols(r.ddn, ispecies_e)` (line 764). -/
def ReM (impl : KineticImpl N nr Ne Nk Ee) : Matrix (Fin nr) (Fin Ne) ℚ :=
  fun k j => impl.rddn k (impl.ispecies_e j)

/-- The columns of the stored rate Jacobian restricted to the kinetic
species: `Rk = cols(r.ddn, ispecies_k)` (line 765). -/
def RkM (impl : KineticImpl N nr Ne Nk Ee) : Matrix (Fin nr) (Fin Nk) ℚ :=
  fun k j => impl.rddn k (impl.ispecies_k j)

/-- The matrix `R` assembled at lines 768-769: `R.leftCols(Ee) = Re * Be`
and `R.rightCols(Nk) = Rk`, where `Be = equilibrium.dndb(state)` is taken
at the resolved state (line 761). -/
def jacobianR (impl : KineticImpl N nr Ne Nk Ee) (s : ChemState N) :
    Matrix (Fin nr) (Fin (Ee + Nk)) ℚ :=
  fun k j =>
    if h : (j : ℕ) < Ee then
      (ReM impl * impl.dndb s) k ⟨j, h⟩
    else
      RkM impl k ⟨(j : ℕ) - Ee, by have := j.isLt; omega⟩

/-- The outcome of one Jacobian evaluation: the `int` return code, the
chemical state as left by the call, and the output matrix `res`. -/
structure JacResult (N Ee Nk : ℕ) where
  code : ℤ
  state : ChemState N
  jac : Matrix (Fin (Ee + Nk)) (Fin (Ee + Nk)) ℚ
deriving DecidableEq

/-- Model of `KineticPath::Impl::jacobian` (lines 748-774): extract `be`,
`nk`, write `nk` into the state, solve the equilibrium problem with target
`be`, then return `res = A * R` with return code `0`.  Note that, unlike
`function`, the source performs no finiteness check on `u`. -/
def jacobianEval (impl : KineticImpl N nr Ne Nk Ee) (state : ChemState N)
    (t : ℚ) (u : Fin (Ee + Nk) → FP) :
    Except (ChemState N) (JacResult N Ee Nk) :=
  (resolveState impl state (fun i => (u i).toRat)).map
    (fun s2 => ⟨0, s2, assembleA impl * jacobianR impl s2⟩)

/-- The combined vector `benk = [We * ne; nk]` assembled from the current
state (lines 506-513 in `initialize`, repeated verbatim at lines 546-553 in
`step`). -/
def benkOf (impl : KineticImpl N nr Ne Nk Ee) (state : ChemState N) :
    Fin (Ee + Nk) → ℚ :=
  fun i =>
    if h : (i : ℕ) < Ee then
      (impl.We.mulVec (fun j => state.speciesAmounts (impl.ispecies_e j)))
        ⟨i, h⟩
    else
      state.speciesAmounts
        (impl.ispecies_k ⟨(i : ℕ) - Ee, by have := i.isLt; omega⟩)

/-- Model of `KineticPath::Impl::initialize` (lines 499-536): read `T`, `P`
from the state (lines 502-503), assemble `u0 = benk = [We * ne; nk]`
(lines 506-513) and hand `(tstart, u0)` to the ODE solver.  The ODE callback
binding is modelled by `functionEval`/`jacobianEval` taking the updated
`impl`; the function returns that updated `impl` together with `u0`. -/
def initializeKP (impl : KineticImpl N nr Ne Nk Ee) (state : ChemState N)
    (tstart : ℚ) : KineticImpl N nr Ne Nk Ee × (Fin (Ee + Nk) → ℚ) :=
  ({ impl with T := state.temperature, P := state.pressure },
    benkOf impl state)

/-- Model of `KineticPath::Impl::step(state, t, tfinal)` (lines 544-567):
re-assemble `benk` from the state, perform one ODE integration step, then
decompose the integrated `benk` into `be`, `nk`, write `nk` into the
kinetic species of the state and re-solve the equilibrium subset with
target `be`.  On success the new state and the advanced time are returned;
an `Except.error` carries the state as it stood when the exception escaped
(in particular, a failing `equilibrium.solve` escapes after
`setSpeciesAmounts` has already run). -/
def stepKP (impl : KineticImpl N nr Ne Nk Ee) (state : ChemState N)
    (t tfinal : ℚ) : Except (ChemState N) (ChemState N × ℚ) :=
  match impl.odeIntegrate t (benkOf impl state) tfinal state with
  | .error s1 => .error s1
  | .ok (t2, benk2, s1) =>
    (impl.eqSolve (s1.setSpeciesAmounts (nkOf benk2) impl.ispecies_k)
        (beOf benk2)).map (fun s2 => (s2, t2))

/-- Model of `KineticPath::Impl::step(state, t)` (lines 538-542): delegate
to the three-argument `step` with `tfinal = unsigned(-1)`, whose value is
`2^32 - 1 = 4294967295` converted to `double`. -/
def stepNoFinal (impl : KineticImpl N nr Ne Nk Ee) (state : ChemState N)
    (t : ℚ) : Except (ChemState N) (ChemState N × ℚ) :=
  stepKP impl state t 4294967295

/-- Model of the `while(t < tfinal) ode.integrate(t, benk, tfinal);` loop of
`solveWithOutput` (lines 606-610).  The `fuel` argument bounds the number of
loop iterations so the model is total: an execution that would still be
iterating when the fuel runs out is reported as an error, so every `ok`
result of the model corresponds exactly to a terminating C++ loop that
exited with `t >= tfinal`.  The `outputState(state, t)` call inside the
loop (line 609) only prints and is omitted. -/
def solveLoop (impl : KineticImpl N nr Ne Nk Ee) :
    ℕ → ℚ → ℚ → (Fin (Ee + Nk) → ℚ) → ChemState N →
    Except (ChemState N) ((Fin (Ee + Nk) → ℚ) × ChemState N)
  | 0, t, tfinal, benk, s =>
    if t < tfinal then .error s else .ok (benk, s)
  | fuel + 1, t, tfinal, benk, s =>
    if t < tfinal then
      match impl.odeIntegrate t benk tfinal s with
      | .error s1 => .error s1
      | .ok (t2, benk2, s1) => solveLoop impl fuel t2 tfinal benk2 s1
    else .ok (benk, s)

/-- Model of `KineticPath::Impl::solveWithoutOutput` (lines 575-592):
run `initialize`, integrate the ODE from `t` to `t + dt` with `ode.solve`,
then decompose the integrated `benk` into `be`, `nk`, write `nk` into the
kinetic species of the state and re-solve the equilibrium subset with
target `be`. -/
def solveWithoutOutputKP (impl : KineticImpl N nr Ne Nk Ee)
    (state : ChemState N) (t dt : ℚ) : Except (ChemState N) (ChemState N) :=
  match (initializeKP impl state t).1.odeSolve t dt
      (initializeKP impl state t).2 state with
  | .error s1 => .error s1
  | .ok (benk2, s1) =>
    (initializeKP impl state t).1.eqSolve
      (s1.setSpeciesAmounts (nkOf benk2)
        (initializeKP impl state t).1.ispecies_k)
      (beOf benk2)

/-- Model of `KineticPath::Impl::solveWithOutput` (lines 594-621): run
`initialize`, drive `ode.integrate` in a loop until `t >= tfinal = t + dt`
(outputting after each internal step, which only prints and is omitted),
then the same decomposition / kinetic write-back / equilibrium re-resolve
epilogue as `solveWithoutOutput` (lines 612-620). -/
def solveWithOutputKP (impl : KineticImpl N nr Ne Nk Ee)
    (state : ChemState N) (t dt : ℚ) (fuel : ℕ) :
    Except (ChemState N) (ChemState N) :=
  match solveLoop (initializeKP impl state t).1 fuel t (t + dt)
      (initializeKP impl state t).2 state with
  | .error s1 => .error s1
  | .ok (benk2, s1) =>
    (initializeKP impl state t).1.eqSolve
      (s1.setSpeciesAmounts (nkOf benk2)
        (initializeKP impl state t).1.ispecies_k)
      (beOf benk2)

/-- Model of `KineticPath::Impl::solve` (lines 569-573): dispatch on
`options.output.active` to the output or no-output variant. -/
def solveKP (impl : KineticImpl N nr Ne Nk Ee) (state : ChemState N)
    (t dt : ℚ) (fuel : ℕ) : Except (ChemState N) (ChemState N) :=
  if impl.outputActive then solveWithOutputKP impl state t dt fuel
  else solveWithoutOutputKP impl state t dt

/-!
Concrete instances used to exercise the theorems below: a two-species,
one-reaction system with one equilibrium species (index 0, carrying one
equilibrium element) and one kinetic species (index 1), plus small
variations of it.
-/

/-- A concrete `KineticImpl` instance: two species, one reaction, one
equilibrium species (index 0), one kinetic species (index 1), one
equilibrium element; stoichiometric row `[-1, 1]`, constant unit rate,
identity equilibrium resolve, identity ODE step. -/
def wImpl : KineticImpl 2 1 1 1 1 where
  ispecies_e := fun _ => 0
  ispecies_k := fun _ => 1
  We := fun _ _ => 1
  S := fun _ j => if (j : ℕ) = 0 then -1 else 1
  activities := fun _ _ n => n
  ratesVal := fun _ _ _ _ => fun _ => 1
  ratesDdn := fun _ _ _ _ => fun _ j => if (j : ℕ) = 0 then 2 else 3
  eqSolve := fun s _ => .ok s
  dndb := fun _ => fun _ _ => 5
  odeIntegrate := fun t benk _ s => .ok (t, benk, s)
  odeSolve := fun _ _ benk s => .ok (benk, s)
  outputActive := false
  T := 298
  P := 100000
  rddn := fun _ j => if (j : ℕ) = 0 then 7 else 11

/-- A concrete chemical state for `wImpl`: amounts `[1, 2]`. -/
def wState : ChemState 2 :=
  ⟨298, 100000, fun j => if (j : ℕ) = 0 then 1 else 2⟩

/-- A finite input vector `u = [4, 5]` for `wImpl`. -/
def wU : Fin (1 + 1) → FP :=
  fun i => if (i : ℕ) = 0 then FP.val 4 else FP.val 5

/-- The prior content of the output parameter `res`. -/
def wRes0 : Fin (1 + 1) → ℚ := fun _ => 0

/-- The state produced by the resolve steps of `function` on `wImpl`,
`wState`, `wU` (the identity equilibrium solve leaves the kinetic update in
place). -/
def wS2 : ChemState 2 :=
  wState.setSpeciesAmounts (@nkOf 1 1 (fun i => (wU i).toRat)) wImpl.ispecies_k

/-- An input vector with a NaN in its `be` component: `u = [NaN, 5]`. -/
def wUnan : Fin (1 + 1) → FP :=
  fun i => if (i : ℕ) = 0 then FP.nan else FP.val 5

/-- The state produced by the resolve steps on input `wUnan`. -/
def wS2n : ChemState 2 :=
  wState.setSpeciesAmounts (@nkOf 1 1 (fun i => (wUnan i).toRat)) wImpl.ispecies_k

/-- The state produced by one `step` of `wImpl` from `wState` (identity
integration followed by the kinetic write-back and identity resolve). -/
def wS3 : ChemState 2 :=
  wState.setSpeciesAmounts (@nkOf 1 1 (benkOf wImpl wState)) wImpl.ispecies_k

/-- Variation of `wImpl` whose equilibrium solve always fails and whose ODE
step moves the combined vector to the constant `9`. -/
def c3Impl : KineticImpl 2 1 1 1 1 :=
  { wImpl with
    eqSolve := fun s _ => .error s
    odeIntegrate := fun t _ _ s => .ok (t + 1, fun _ => 9, s) }

/-- The state carried by the exception escaping from `step` on `c3Impl`:
the kinetic amount has already been set to `9`. -/
def c3ErrState : ChemState 2 :=
  wState.setSpeciesAmounts (@nkOf 1 1 (fun _ => 9)) wImpl.ispecies_k

/-- Variation of `wImpl` whose stoichiometric row is `[-1, -1]`, so that the
kinetic derivative component is negative. -/
def c4Impl : KineticImpl 2 1 1 1 1 :=
  { wImpl with S := fun _ _ => -1 }

/-- An input vector whose kinetic component is depleted: `u = [4, 0]`. -/
def c4U : Fin (1 + 1) → FP :=
  fun i => if (i : ℕ) = 0 then FP.val 4 else FP.val 0

/-- The state produced by the resolve steps of `function` on `c4Impl`,
`wState`, `c4U`. -/
def c4S2 : ChemState 2 :=
  wState.setSpeciesAmounts (@nkOf 1 1 (fun i => (c4U i).toRat)) c4Impl.ispecies_k

/-- An input vector whose equilibrium-element component is depleted:
`u = [0, 5]`. -/
def c7U : Fin (1 + 1) → FP :=
  fun i => if (i : ℕ) = 0 then FP.val 0 else FP.val 5

/-- The state produced by the resolve steps of `function` on `wImpl`,
`wState`, `c7U`. -/
def c7S2 : ChemState 2 :=
  wState.setSpeciesAmounts (@nkOf 1 1 (fun i => (c7U i).toRat)) wImpl.ispecies_k

/-- Variation of `wImpl` whose rate vector is identically zero. -/
def c9Impl : KineticImpl 2 1 1 1 1 :=
  { wImpl with ratesVal := fun _ _ _ _ => fun _ => 0 }

/-- The state produced by the resolve steps of `function` on `c9Impl`,
`wState`, `wU` (same as `wS2`: only the rate law differs). -/
def c9S2 : ChemState 2 :=
  wState.setSpeciesAmounts (@nkOf 1 1 (fun i => (wU i).toRat)) c9Impl.ispecies_k

/-- A one-species instance with no kinetic species and no equilibrium
elements, whose ODE integration advances the time to `min (10^10) tfinal`:
an integrator that would reach `t = 10^10` were it not stopped by the
`tfinal` bound. -/
def c8Impl : KineticImpl 1 1 1 0 0 where
  ispecies_e := fun _ => 0
  ispecies_k := fun i => i.elim0
  We := fun i _ => i.elim0
  S := fun _ _ => 0
  activities := fun _ _ n => n
  ratesVal := fun _ _ _ _ => fun _ => 0
  ratesDdn := fun _ _ _ _ => fun _ _ => 0
  eqSolve := fun s _ => .ok s
  dndb := fun _ => fun _ j => j.elim0
  odeIntegrate := fun _ benk tfinal s => .ok (min (10 ^ 10) tfinal, benk, s)
  odeSolve := fun _ _ benk s => .ok (benk, s)
  outputActive := false
  T := 300
  P := 1
  rddn := fun _ _ => 0

/-- A concrete chemical state for `c8Impl`. -/
def c8State : ChemState 1 := ⟨300, 1, fun _ => 1⟩

/-!
Helper lemmas shared by the claim theorems.
-/

/-- The successful branch of `function`: with all components of `u` finite
and the equilibrium resolve succeeding with state `s2`, the call returns
code `0`, state `s2`, and the floored right-hand side. -/
theorem functionEval_ok (impl : KineticImpl N nr Ne Nk Ee)
    (state : ChemState N) (t : ℚ) (u : Fin (Ee + Nk) → FP)
    (res0 : Fin (Ee + Nk) → ℚ)
    (hfin : ∀ i, (u i).isFinite = true) (s2 : ChemState N)
    (hok : resolveState impl state (fun i => (u i).toRat) = .ok s2) :
    functionEval impl state t u res0 =
      .ok ⟨0, s2,
        applyFloor (fun i => (u i).toRat) (preFloorRes impl s2),
        rateDdnAt impl s2, impl.T, impl.P⟩ := by
  unfold functionEval
  rw [if_pos hfin, hok]
  rfl

/-- The guarded branch of `function`: with some component of `u` non-finite,
the call returns code `1` and leaves the state and output untouched. -/
theorem functionEval_guard (impl : KineticImpl N nr Ne Nk Ee)
    (state : ChemState N) (t : ℚ) (u : Fin (Ee + Nk) → FP)
    (res0 : Fin (Ee + Nk) → ℚ)
    (hnf : ¬ ∀ i, (u i).isFinite = true) :
    functionEval impl state t u res0 =
      .ok ⟨1, state, res0, impl.rddn, impl.T, impl.P⟩ := by
  unfold functionEval
  rw [if_neg hnf]

/-- The right-hand side assembled blockwise at lines 737-738 equals the
matrix-vector product with the coefficient matrix `A` of lines 486-488. -/
theorem preFloorRes_eq_A_mulVec (impl : KineticImpl N nr Ne Nk Ee)
    (s : ChemState N) :
    preFloorRes impl s = (assembleA impl).mulVec (rateValAt impl s) := by
  funext i
  by_cases h : (i : ℕ) < Ee
  · simp [preFloorRes, assembleA, Matrix.mulVec, Matrix.dotProduct, h]
  · simp [preFloorRes, assembleA, Matrix.mulVec, Matrix.dotProduct, h]

/-- The top block of `A`: row `i < Ee` of `A` is row `i` of `We * tr(Se)`. -/
theorem assembleA_top (impl : KineticImpl N nr Ne Nk Ee)
    (i : Fin Ee) (j : Fin nr) :
    assembleA impl (Fin.castAdd Nk i) j =
      (impl.We * (SeM impl).transpose) i j := by
  have h : ((Fin.castAdd Nk i : Fin (Ee + Nk)) : ℕ) < Ee := i.isLt
  simp [assembleA, h]

/-- The bottom block of `A`: row `Ee + i` of `A` is row `i` of `tr(Sk)`. -/
theorem assembleA_bottom (impl : KineticImpl N nr Ne Nk Ee)
    (i : Fin Nk) (j : Fin nr) :
    assembleA impl (Fin.natAdd Ee i) j = (SkM impl).transpose i j := by
  have h : ¬ ((Fin.natAdd Ee i : Fin (Ee + Nk)) : ℕ) < Ee := by
    simp [Fin.natAdd]
  simp only [assembleA, dif_neg h]
  congr 1
  ext
  simp [Fin.natAdd]

/-!
Claim theorems.
-/

/-- Claim C1: for every finite input vector `u = [be; nk]`, the
right-hand-side evaluation returns, before the non-negativity floor,
`du/dt = A * r.value`, where `r` is the rate vector evaluated at the
resolved composition and `A` is the coefficient matrix assembled by
`setPartition`, with top block `We * tr(Se)` (`Ee` rows) and bottom block
`tr(Sk)` (`Nk` rows), of shape `(Ee+Nk) x numReactions`. -/
theorem c1_rhs_is_A_mul_rate (impl : KineticImpl N nr Ne Nk Ee)
    (state : ChemState N) (t : ℚ) (u : Fin (Ee + Nk) → FP)
    (res0 : Fin (Ee + Nk) → ℚ)
    (hfin : ∀ i, (u i).isFinite = true) (s2 : ChemState N)
    (hok : resolveState impl state (fun i => (u i).toRat) = .ok s2) :
    preFloorRes impl s2 = (assembleA impl).mulVec (rateValAt impl s2) ∧
    (∀ (i : Fin Ee) (j : Fin nr),
      assembleA impl (Fin.castAdd Nk i) j =
        (impl.We * (SeM impl).transpose) i j) ∧
    (∀ (i : Fin Nk) (j : Fin nr),
      assembleA impl (Fin.natAdd Ee i) j = (SkM impl).transpose i j) ∧
    functionEval impl state t u res0 =
      .ok ⟨0, s2,
        applyFloor (fun i => (u i).toRat)
          ((assembleA impl).mulVec (rateValAt impl s2)),
        rateDdnAt impl s2, impl.T, impl.P⟩ := by
  refine ⟨preFloorRes_eq_A_mulVec impl s2, assembleA_top impl,
    assembleA_bottom impl, ?_⟩
  rw [functionEval_ok impl state t u res0 hfin s2 hok,
    preFloorRes_eq_A_mulVec impl s2]

/-- Witness for C1 on the concrete instance `wImpl`. -/
theorem c1_rhs_is_A_mul_rate_witness :
    (∀ i, (wU i).isFinite = true) ∧
    resolveState wImpl wState (fun i => (wU i).toRat) = .ok wS2 ∧
    (preFloorRes wImpl wS2 = (assembleA wImpl).mulVec (rateValAt wImpl wS2) ∧
    (∀ (i : Fin 1) (j : Fin 1),
      assembleA wImpl (Fin.castAdd 1 i) j =
        (wImpl.We * (SeM wImpl).transpose) i j) ∧
    (∀ (i : Fin 1) (j : Fin 1),
      assembleA wImpl (Fin.natAdd 1 i) j = (SkM wImpl).transpose i j) ∧
    functionEval wImpl wState 0 wU wRes0 =
      .ok ⟨0, wS2,
        applyFloor (fun i => (wU i).toRat)
          ((assembleA wImpl).mulVec (rateValAt wImpl wS2)),
        rateDdnAt wImpl wS2, wImpl.T, wImpl.P⟩) :=
  ⟨by decide, rfl, c1_rhs_is_A_mul_rate wImpl wState 0 wU wRes0
    (by decide) wS2 rfl⟩

/-- Claim C2: for every input vector `u` with at least one non-finite
component, the right-hand-side evaluation returns a nonzero failure code,
does not raise a fatal error (it returns normally rather than letting an
exception escape), and leaves the chemical state unmodified. -/
theorem c2_nonfinite_guard (impl : KineticImpl N nr Ne Nk Ee)
    (state : ChemState N) (t : ℚ) (u : Fin (Ee + Nk) → FP)
    (res0 : Fin (Ee + Nk) → ℚ)
    (hnf : ∃ i, (u i).isFinite = false) :
    ∃ fr, functionEval impl state t u res0 = .ok fr ∧
      fr.code ≠ 0 ∧ fr.state = state ∧ fr.res = res0 := by
  have h : ¬ ∀ i, (u i).isFinite = true := by
    obtain ⟨i, hi⟩ := hnf
    intro hall
    rw [hall i] at hi
    exact Bool.noConfusion hi
  exact ⟨_, functionEval_guard impl state t u res0 h, one_ne_zero, rfl, rfl⟩

/-- Witness for C2: feeding `u = [NaN, 5]` to `function` on `wImpl`. -/
theorem c2_nonfinite_guard_witness :
    (∃ i, (wUnan i).isFinite = false) ∧
    ∃ fr, functionEval wImpl wState 0 wUnan wRes0 = .ok fr ∧
      fr.code ≠ 0 ∧ fr.state = wState ∧ fr.res = wRes0 :=
  ⟨by decide, c2_nonfinite_guard wImpl wState 0 wUnan wRes0 (by decide)⟩

/-- Claim C3 (amended): every `step` or `solve` call that returns
successfully leaves the chemical state fully consistent — the integrated
`benk` is decomposed, the kinetic amounts `nk` are written into the state,
and the equilibrium subset is re-resolved against `be` to produce the
returned state.  For `solve` both dispatch targets are covered: the
no-output variant (driven by `ode.solve`) and the output variant (driven by
the `ode.integrate` loop).  (The original claim's failure half is refuted
by `c3_step_commit_cex`: a failing equilibrium re-resolve escapes after the
kinetic amounts were already committed.) -/
theorem c3_step_commit (impl : KineticImpl N nr Ne Nk Ee)
    (state : ChemState N) (t tfinal : ℚ) (s2 : ChemState N) (t2 : ℚ)
    (hstep : stepKP impl state t tfinal = .ok (s2, t2))
    (impl2 : KineticImpl N nr Ne Nk Ee) (state2 : ChemState N)
    (t3 dt : ℚ) (fuel : ℕ) (s4 : ChemState N)
    (hsolve : solveKP impl2 state2 t3 dt fuel = .ok s4) :
    (∃ benk2 s1,
      impl.odeIntegrate t (benkOf impl state) tfinal state =
        .ok (t2, benk2, s1) ∧
      impl.eqSolve (s1.setSpeciesAmounts (nkOf benk2) impl.ispecies_k)
        (beOf benk2) = .ok s2) ∧
    (∃ benk3 s3,
      ((impl2.outputActive = false ∧
        (initializeKP impl2 state2 t3).1.odeSolve t3 dt
          (benkOf impl2 state2) state2 = .ok (benk3, s3)) ∨
       (impl2.outputActive = true ∧
        solveLoop (initializeKP impl2 state2 t3).1 fuel t3 (t3 + dt)
          (benkOf impl2 state2) state2 = .ok (benk3, s3))) ∧
      (initializeKP impl2 state2 t3).1.eqSolve
        (s3.setSpeciesAmounts (nkOf benk3) impl2.ispecies_k)
        (beOf benk3) = .ok s4) := by
  constructor
  · unfold stepKP at hstep
    cases h1 : impl.odeIntegrate t (benkOf impl state) tfinal state with
    | error s' =>
      rw [h1] at hstep
      exact absurd hstep (by simp)
    | ok trip =>
      obtain ⟨t4, benk2, s1⟩ := trip
      rw [h1] at hstep
      dsimp only at hstep
      cases h2 : impl.eqSolve (s1.setSpeciesAmounts (nkOf benk2)
          impl.ispecies_k) (beOf benk2) with
      | error s'' =>
        rw [h2] at hstep
        exact absurd hstep (by simp [Except.map])
      | ok s3 =>
        rw [h2] at hstep
        simp only [Except.map, Except.ok.injEq, Prod.mk.injEq] at hstep
        obtain ⟨hs, ht⟩ := hstep
        exact ⟨benk2, s1, by rw [ht], by rw [h2, hs]⟩
  · unfold solveKP at hsolve
    by_cases hout : impl2.outputActive = true
    · rw [if_pos hout] at hsolve
      unfold solveWithOutputKP at hsolve
      cases h1 : solveLoop (initializeKP impl2 state2 t3).1 fuel t3
          (t3 + dt) (initializeKP impl2 state2 t3).2 state2 with
      | error s' =>
        rw [h1] at hsolve
        exact absurd hsolve (by simp)
      | ok pr =>
        obtain ⟨benk3, s3⟩ := pr
        rw [h1] at hsolve
        dsimp only at hsolve
        exact ⟨benk3, s3, Or.inr ⟨hout, h1⟩, hsolve⟩
    · rw [if_neg hout] at hsolve
      unfold solveWithoutOutputKP at hsolve
      cases h1 : (initializeKP impl2 state2 t3).1.odeSolve t3 dt
          (initializeKP impl2 state2 t3).2 state2 with
      | error s' =>
        rw [h1] at hsolve
        exact absurd hsolve (by simp)
      | ok pr =>
        obtain ⟨benk3, s3⟩ := pr
        rw [h1] at hsolve
        dsimp only at hsolve
        exact ⟨benk3, s3,
          Or.inl ⟨Bool.not_eq_true _ ▸ eq_false_of_ne_true hout, h1⟩,
          hsolve⟩

/-- Counterexample to C3 as stated: on `c3Impl` (whose equilibrium solve
fails), `step` fails with an exception, yet the kinetic species amount has
already been overwritten with the integrated value `9` — a committed
partial update on a failing call. -/
theorem c3_step_commit_cex :
    stepKP c3Impl wState 0 1 = .error c3ErrState ∧
    c3ErrState.speciesAmounts 1 = 9 ∧
    wState.speciesAmounts 1 = 2 ∧
    c3ErrState.speciesAmounts ≠ wState.speciesAmounts :=
  ⟨rfl, by decide, by decide, by decide⟩

/-- Witness for C3 (amended) on the concrete instance `wImpl`, whose `step`
and `solve` both succeed. -/
theorem c3_step_commit_witness :
    stepKP wImpl wState 0 1 = .ok (wS3, 0) ∧
    solveKP wImpl wState 0 1 0 = .ok wS3 ∧
    ((∃ benk2 s1,
      wImpl.odeIntegrate 0 (benkOf wImpl wState) 1 wState =
        .ok (0, benk2, s1) ∧
      wImpl.eqSolve (s1.setSpeciesAmounts (@nkOf 1 1 benk2)
        wImpl.ispecies_k) (@beOf 1 1 benk2) = .ok wS3) ∧
    (∃ benk3 s3,
      ((wImpl.outputActive = false ∧
        (initializeKP wImpl wState 0).1.odeSolve 0 1
          (benkOf wImpl wState) wState = .ok (benk3, s3)) ∨
       (wImpl.outputActive = true ∧
        solveLoop (initializeKP wImpl wState 0).1 0 0 (0 + 1)
          (benkOf wImpl wState) wState = .ok (benk3, s3))) ∧
      (initializeKP wImpl wState 0).1.eqSolve
        (s3.setSpeciesAmounts (@nkOf 1 1 benk3) wImpl.ispecies_k)
        (@beOf 1 1 benk3) = .ok wS3)) :=
  ⟨rfl, rfl,
    c3_step_commit wImpl wState 0 1 wS3 0 rfl wImpl wState 0 1 0 wS3 rfl⟩

/-- Claim C4: for every finite input vector `u` and every index `i` with
`|u[i]| < 1e-50` and a negative computed derivative component, the
right-hand side returns exactly `0` for that component. -/
theorem c4_floor_clamp (impl : KineticImpl N nr Ne Nk Ee)
    (state : ChemState N) (t : ℚ) (u : Fin (Ee + Nk) → FP)
    (res0 : Fin (Ee + Nk) → ℚ)
    (hfin : ∀ i, (u i).isFinite = true) (s2 : ChemState N)
    (hok : resolveState impl state (fun i => (u i).toRat) = .ok s2)
    (i : Fin (Ee + Nk))
    (hsmall : |(u i).toRat| < floorEps)
    (hneg : preFloorRes impl s2 i < 0) :
    ∃ fr, functionEval impl state t u res0 = .ok fr ∧ fr.res i = 0 :=
  ⟨_, functionEval_ok impl state t u res0 hfin s2 hok, by
    simp [applyFloor, hsmall, hneg]⟩

/-- Witness for C4 on the concrete instance `c4Impl` at the depleted
kinetic component `i = 1`. -/
theorem c4_floor_clamp_witness :
    (∀ i, (c4U i).isFinite = true) ∧
    resolveState c4Impl wState (fun i => (c4U i).toRat) = .ok c4S2 ∧
    |(c4U 1).toRat| < floorEps ∧
    preFloorRes c4Impl c4S2 1 < 0 ∧
    ∃ fr, functionEval c4Impl wState 0 c4U wRes0 = .ok fr ∧
      fr.res 1 = 0 := by
  have hsmall : |(c4U 1).toRat| < floorEps := by
    norm_num [c4U, FP.toRat, floorEps]
  have hneg : preFloorRes c4Impl c4S2 1 < 0 := by
    norm_num [preFloorRes, SkM, rateValAt, c4Impl, wImpl, Matrix.mulVec,
      Matrix.dotProduct, Fin.sum_univ_one, Matrix.transpose_apply]
  exact ⟨by decide, rfl, hsmall, hneg,
    c4_floor_clamp c4Impl wState 0 c4U wRes0 (by decide) c4S2 rfl 1
      hsmall hneg⟩

/-- Claim C5: for every input vector `u` (with the equilibrium resolve
succeeding with state `s2`), the Jacobian evaluation returns `A * R`, where
`R = [Re * Be | Rk]` has width `Ee + Nk`, `Be` is the sensitivity from the
equilibrium provider, and `Re`, `Rk` are the columns of the stored rate
Jacobian restricted to the equilibrium and kinetic species. -/
theorem c5_jacobian_assembly (impl : KineticImpl N nr Ne Nk Ee)
    (state : ChemState N) (t : ℚ) (u : Fin (Ee + Nk) → FP)
    (s2 : ChemState N)
    (hok : resolveState impl state (fun i => (u i).toRat) = .ok s2) :
    jacobianEval impl state t u =
      .ok ⟨0, s2, assembleA impl * jacobianR impl s2⟩ ∧
    (∀ (k : Fin nr) (j : Fin Ee),
      jacobianR impl s2 k (Fin.castAdd Nk j) =
        (ReM impl * impl.dndb s2) k j) ∧
    (∀ (k : Fin nr) (j : Fin Nk),
      jacobianR impl s2 k (Fin.natAdd Ee j) = RkM impl k j) := by
  refine ⟨?_, ?_, ?_⟩
  · unfold jacobianEval
    rw [hok]
    rfl
  · intro k j
    have h : ((Fin.castAdd Nk j : Fin (Ee + Nk)) : ℕ) < Ee := j.isLt
    simp [jacobianR, h]
  · intro k j
    have h : ¬ ((Fin.natAdd Ee j : Fin (Ee + Nk)) : ℕ) < Ee := by
      simp [Fin.natAdd]
    simp only [jacobianR, dif_neg h]
    congr 1
    ext
    simp [Fin.natAdd]

/-- Witness for C5 on the concrete instance `wImpl`. -/
theorem c5_jacobian_assembly_witness :
    resolveState wImpl wState (fun i => (wU i).toRat) = .ok wS2 ∧
    (jacobianEval wImpl wState 0 wU =
      .ok ⟨0, wS2, assembleA wImpl * jacobianR wImpl wS2⟩ ∧
    (∀ (k : Fin 1) (j : Fin 1),
      jacobianR wImpl wS2 k (Fin.castAdd 1 j) =
        (ReM wImpl * wImpl.dndb wS2) k j) ∧
    (∀ (k : Fin 1) (j : Fin 1),
      jacobianR wImpl wS2 k (Fin.natAdd 1 j) = RkM wImpl k j)) :=
  ⟨rfl, c5_jacobian_assembly wImpl wState 0 wU wS2 rfl⟩

/-- Claim C6 (amended): the Jacobian evaluation performs steps 2-3 of the
right-hand side (kinetic write-back and equilibrium resolve) but NOT the
step-1 finiteness guard: for an input vector `u` with a non-finite
component it still runs the resolve, mutates the chemical state
accordingly, and returns the success code `0` — it does not report failure
to the integrator. -/
theorem c6_jacobian_no_guard (impl : KineticImpl N nr Ne Nk Ee)
    (state : ChemState N) (t : ℚ) (u : Fin (Ee + Nk) → FP)
    (hnf : ∃ i, (u i).isFinite = false) (s2 : ChemState N)
    (hok : resolveState impl state (fun i => (u i).toRat) = .ok s2) :
    jacobianEval impl state t u =
      .ok ⟨0, s2, assembleA impl * jacobianR impl s2⟩ := by
  unfold jacobianEval
  rw [hok]
  rfl

/-- Counterexample to C6 as stated: on `wImpl` with `u = [NaN, 5]`, the
Jacobian evaluation returns code `0` (not a failure), and the chemical
state has been mutated (the kinetic amount changed from `2` to `5`). -/
theorem c6_jacobian_no_guard_cex :
    (wUnan 0).isFinite = false ∧
    jacobianEval wImpl wState 0 wUnan =
      .ok ⟨0, wS2n, assembleA wImpl * jacobianR wImpl wS2n⟩ ∧
    wS2n.speciesAmounts 1 = 5 ∧
    wState.speciesAmounts 1 = 2 ∧
    wS2n.speciesAmounts ≠ wState.speciesAmounts :=
  ⟨by decide, rfl, by decide, by decide, by decide⟩

/-- Witness for C6 (amended) on the concrete instance `wImpl` at the
non-finite input `wUnan`. -/
theorem c6_jacobian_no_guard_witness :
    (∃ i, (wUnan i).isFinite = false) ∧
    resolveState wImpl wState (fun i => (wUnan i).toRat) = .ok wS2n ∧
    jacobianEval wImpl wState 0 wUnan =
      .ok ⟨0, wS2n, assembleA wImpl * jacobianR wImpl wS2n⟩ :=
  ⟨by decide, rfl,
    c6_jacobian_no_guard wImpl wState 0 wUnan (by decide) wS2n rfl⟩

/-- Claim C7 (amended): the non-negativity floor clamps only negative
derivative components, but it applies to ALL components of `u`, including
the equilibrium-element (`be`) components: for every index `i < Ee` with
`|u[i]| < 1e-50` and a negative computed derivative, the returned component
is `0`, not the computed value. -/
theorem c7_floor_scope (impl : KineticImpl N nr Ne Nk Ee)
    (state : ChemState N) (t : ℚ) (u : Fin (Ee + Nk) → FP)
    (res0 : Fin (Ee + Nk) → ℚ)
    (hfin : ∀ i, (u i).isFinite = true) (s2 : ChemState N)
    (hok : resolveState impl state (fun i => (u i).toRat) = .ok s2)
    (i : Fin (Ee + Nk)) (hbe : (i : ℕ) < Ee)
    (hsmall : |(u i).toRat| < floorEps)
    (hneg : preFloorRes impl s2 i < 0) :
    ∃ fr, functionEval impl state t u res0 = .ok fr ∧ fr.res i = 0 :=
  ⟨_, functionEval_ok impl state t u res0 hfin s2 hok, by
    simp [applyFloor, hsmall, hneg]⟩

/-- Counterexample to C7 as stated: on `wImpl` with `u = [0, 5]`, the `be`
component `i = 0 < Ee` has `|u[0]| < 1e-50` and computed derivative `-1`,
yet the returned derivative component is `0`, not the computed `-1`. -/
theorem c7_floor_scope_cex :
    ((0 : Fin (1 + 1)) : ℕ) < 1 ∧
    |(c7U 0).toRat| < floorEps ∧
    preFloorRes wImpl c7S2 0 = -1 ∧
    functionEval wImpl wState 0 c7U wRes0 =
      .ok ⟨0, c7S2,
        applyFloor (fun i => (c7U i).toRat) (preFloorRes wImpl c7S2),
        rateDdnAt wImpl c7S2, wImpl.T, wImpl.P⟩ ∧
    applyFloor (fun i => (c7U i).toRat) (preFloorRes wImpl c7S2) 0 = 0 ∧
    ((-1 : ℚ) ≠ 0) := by
  have hsmall : |(c7U 0).toRat| < floorEps := by
    norm_num [c7U, FP.toRat, floorEps]
  have hpre : preFloorRes wImpl c7S2 0 = -1 := by
    norm_num [preFloorRes, SeM, rateValAt, wImpl, Matrix.mulVec,
      Matrix.dotProduct, Fin.sum_univ_one, Matrix.mul_apply,
      Matrix.transpose_apply]
  refine ⟨by decide, hsmall, hpre,
    functionEval_ok wImpl wState 0 c7U wRes0 (by decide) c7S2 rfl, ?_, by
      norm_num⟩
  rw [show applyFloor (fun i => (c7U i).toRat) (preFloorRes wImpl c7S2) 0 =
      if |(c7U 0).toRat| < floorEps ∧ preFloorRes wImpl c7S2 0 < 0 then 0
      else preFloorRes wImpl c7S2 0 from rfl]
  rw [if_pos ⟨hsmall, by rw [hpre]; norm_num⟩]

/-- Witness for C7 (amended) on the concrete instance `wImpl` at the `be`
index `i = 0`. -/
theorem c7_floor_scope_witness :
    (∀ i, (c7U i).isFinite = true) ∧
    resolveState wImpl wState (fun i => (c7U i).toRat) = .ok c7S2 ∧
    ((0 : Fin (1 + 1)) : ℕ) < 1 ∧
    |(c7U 0).toRat| < floorEps ∧
    preFloorRes wImpl c7S2 0 < 0 ∧
    ∃ fr, functionEval wImpl wState 0 c7U wRes0 = .ok fr ∧
      fr.res 0 = 0 := by
  have hsmall : |(c7U 0).toRat| < floorEps := by
    norm_num [c7U, FP.toRat, floorEps]
  have hneg : preFloorRes wImpl c7S2 0 < 0 := by
    norm_num [preFloorRes, SeM, rateValAt, wImpl, Matrix.mulVec,
      Matrix.dotProduct, Fin.sum_univ_one, Matrix.mul_apply,
      Matrix.transpose_apply]
  exact ⟨by decide, rfl, by decide, hsmall, hneg,
    c7_floor_scope wImpl wState 0 c7U wRes0 (by decide) c7S2 rfl 0
      (by decide) hsmall hneg⟩

/-- Claim C8 (amended): `step(state, &t)` without a `tfinal` argument does
not leave the step unbounded in time; it delegates to the bounded step with
the finite bound `tfinal = unsigned(-1) = 4294967295`. -/
theorem c8_step_bound (impl : KineticImpl N nr Ne Nk Ee)
    (state : ChemState N) (t : ℚ) :
    stepNoFinal impl state t = stepKP impl state t 4294967295 := rfl

/-- Counterexample to C8 as stated: on `c8Impl`, whose integrator advances
the time to `min (10^10) tfinal`, the no-`tfinal` step stops at
`4294967295 < 10^10` — an upper time bound was imposed. -/
theorem c8_step_bound_cex :
    stepNoFinal c8Impl c8State 0 =
      .ok (c8State, min ((10 : ℚ) ^ 10) 4294967295) ∧
    min ((10 : ℚ) ^ 10) 4294967295 = 4294967295 ∧
    (4294967295 : ℚ) < 10 ^ 10 :=
  ⟨rfl, by decide, by decide⟩

/-- Claim C9: whenever the rate vector `r.value` evaluates to zero, the
right-hand-side evaluation returns the zero derivative vector (so the
integrator advances `u` by nothing, up to its own tolerance, over any
`dt`). -/
theorem c9_zero_rate (impl : KineticImpl N nr Ne Nk Ee)
    (state : ChemState N) (t : ℚ) (u : Fin (Ee + Nk) → FP)
    (res0 : Fin (Ee + Nk) → ℚ)
    (hfin : ∀ i, (u i).isFinite = true) (s2 : ChemState N)
    (hok : resolveState impl state (fun i => (u i).toRat) = .ok s2)
    (hz : rateValAt impl s2 = fun _ => 0) :
    ∃ fr, functionEval impl state t u res0 = .ok fr ∧
      fr.code = 0 ∧ fr.res = fun _ => 0 := by
  refine ⟨_, functionEval_ok impl state t u res0 hfin s2 hok, rfl, ?_⟩
  have hp : preFloorRes impl s2 = fun _ => 0 := by
    funext i
    by_cases h : (i : ℕ) < Ee
    · simp [preFloorRes, h, hz, Matrix.mulVec, Matrix.dotProduct]
    · simp [preFloorRes, h, hz, Matrix.mulVec, Matrix.dotProduct]
  funext i
  simp [applyFloor, hp]

/-- Witness for C9 on the concrete instance `c9Impl`, whose rate law is
identically zero. -/
theorem c9_zero_rate_witness :
    (∀ i, (wU i).isFinite = true) ∧
    resolveState c9Impl wState (fun i => (wU i).toRat) = .ok c9S2 ∧
    rateValAt c9Impl c9S2 = (fun _ => 0) ∧
    ∃ fr, functionEval c9Impl wState 0 wU wRes0 = .ok fr ∧
      fr.code = 0 ∧ fr.res = fun _ => 0 :=
  ⟨by decide, rfl, rfl,
    c9_zero_rate c9Impl wState 0 wU wRes0 (by decide) c9S2 rfl rfl⟩

/-- Claim C10: `initialize(state, tstart)` captures the temperature and
pressure from the chemical state at that moment (lines 502-503), and every
subsequent right-hand-side evaluation computes the species activities and
reaction rates at exactly that captured `T`, `P` — even when it is handed a
state `s` whose own temperature and pressure are arbitrary (changed after
the `initialize` call), and until a new `initialize` overwrites them. -/
theorem c10_tp_capture (impl : KineticImpl N nr Ne Nk Ee)
    (s0 : ChemState N) (t0 : ℚ) (s : ChemState N) (t : ℚ)
    (u : Fin (Ee + Nk) → FP) (res0 : Fin (Ee + Nk) → ℚ)
    (hfin : ∀ i, (u i).isFinite = true) (s2 : ChemState N)
    (hok : resolveState (initializeKP impl s0 t0).1 s
      (fun i => (u i).toRat) = .ok s2) :
    (initializeKP impl s0 t0).1.T = s0.temperature ∧
    (initializeKP impl s0 t0).1.P = s0.pressure ∧
    rateValAt (initializeKP impl s0 t0).1 s2 =
      impl.ratesVal s0.temperature s0.pressure s2.speciesAmounts
        (impl.activities s0.temperature s0.pressure s2.speciesAmounts) ∧
    ∃ fr, functionEval (initializeKP impl s0 t0).1 s t u res0 = .ok fr ∧
      fr.Tused = s0.temperature ∧ fr.Pused = s0.pressure := by
  refine ⟨rfl, rfl, rfl,
    _, functionEval_ok (initializeKP impl s0 t0).1 s t u res0 hfin s2 hok,
    rfl, rfl⟩

/-- Witness for C10 on the concrete instance `wImpl`, re-initialised from a
state with temperature `350` and pressure `2`, then evaluated on a state
whose temperature and pressure have been changed to `500` and `9`. -/
theorem c10_tp_capture_witness :
    (∀ i, (wU i).isFinite = true) ∧
    resolveState (initializeKP wImpl ⟨350, 2, fun _ => 1⟩ 0).1
      ⟨500, 9, wState.speciesAmounts⟩ (fun i => (wU i).toRat) =
      .ok ⟨500, 9, wS2.speciesAmounts⟩ ∧
    ((initializeKP wImpl ⟨350, 2, fun _ => 1⟩ 0).1.T = 350 ∧
    (initializeKP wImpl ⟨350, 2, fun _ => 1⟩ 0).1.P = 2 ∧
    rateValAt (initializeKP wImpl ⟨350, 2, fun _ => 1⟩ 0).1
        ⟨500, 9, wS2.speciesAmounts⟩ =
      wImpl.ratesVal 350 2
        (⟨500, 9, wS2.speciesAmounts⟩ : ChemState 2).speciesAmounts
        (wImpl.activities 350 2
          (⟨500, 9, wS2.speciesAmounts⟩ : ChemState 2).speciesAmounts) ∧
    ∃ fr, functionEval (initializeKP wImpl ⟨350, 2, fun _ => 1⟩ 0).1
        ⟨500, 9, wState.speciesAmounts⟩ 0 wU wRes0 = .ok fr ∧
      fr.Tused = 350 ∧ fr.Pused = 2) :=
  ⟨by decide, rfl,
    c10_tp_capture wImpl ⟨350, 2, fun _ => 1⟩ 0
      ⟨500, 9, wState.speciesAmounts⟩ 0 wU wRes0 (by decide)
      ⟨500, 9, wS2.speciesAmounts⟩ rfl⟩

end Reaktoro
